import Mathlib

set_option autoImplicit false

namespace Kliff

/-!
Shallow embedding of the kliff repository code relevant to the frozen claims.

Part 1 embeds the code under `src/kliff` (`models/neural_network.py` and
`calculators/calculator_torch.py`): Python objects become Lean structures,
method calls become functions from the pre-state to the post-state, and a
raised Python exception is modelled by an explicit error value returned
together with the post-state (for `__init__`, by `Except`, since a raising
constructor yields no object).

Part 2 models the MCMC diagnostic and sampling layer (`kliff.uq`), whose
implementation is not part of the present source tree; only its caller
(`src/examples/example_uq_mcmc.py`) is.  Those definitions are therefore
modelled from the specification text, as marked in their doc comments.
Real-valued series are embedded as rationals.
-/

/-- Torch floating point dtypes, as carried by a descriptor. -/
inductive DType where
  | float32 : DType
  | float64 : DType
deriving DecidableEq

/-- Descriptor of `kliff.descriptors`: the claims only use its
`get_size()` and `dtype` attributes. -/
structure Descriptor where
  size : ℕ
  dtype : DType
deriving DecidableEq

/-- A torch layer, reduced to the two attributes `add_layers` inspects. -/
structure Layer where
  in_features : ℕ
  out_features : ℕ
deriving DecidableEq

/-- State of a `kliff.models.neural_network.NeuralNetwork` object:
`__init__` sets `self.layers = None`; `add_layers` may later set it. -/
structure NeuralNetwork where
  descriptor : Descriptor
  layers : Option (List Layer)
deriving DecidableEq

/-- Python exceptions raised by the embedded methods. -/
inductive PyRaise where
  | neuralNetworkError : String → PyRaise
  | calculatorTorchError : String → PyRaise
  | indexError : PyRaise
  | unboundLocalError : PyRaise
deriving DecidableEq

/-- `NeuralNetwork.__init__`: stores the descriptor and sets
`self.layers = None`. -/
def NeuralNetwork.new (d : Descriptor) : NeuralNetwork :=
  ⟨d, none⟩

/-- `NeuralNetwork.add_layers` (neural_network.py lines 33-67).  The Python
method first rejects a repeated call, otherwise sets `self.layers = []`,
appends every argument layer, and only then validates the shape of the first
and last layer; the shape checks raise `NeuralNetworkError` after
`self.layers` is already populated.  An empty argument list makes
`self.layers[0]` raise `IndexError`.  The returned pair is the post-state of
the object together with the exception raised, if any. -/
def add_layers (m : NeuralNetwork) (ls : List Layer) : NeuralNetwork × Option PyRaise :=
  if m.layers.isSome then
    (m, some (PyRaise.neuralNetworkError
      "add_layers() called multiple times. It should be called only once."))
  else
    let m2 : NeuralNetwork := { m with layers := some ls }
    match ls with
    | [] => (m2, some PyRaise.indexError)
    | first :: rest =>
      if first.in_features ≠ m.descriptor.size then
        (m2, some (PyRaise.neuralNetworkError
          "Expect in_features of first layer be equal to descriptor size."))
      else if ((first :: rest).getLastD first).out_features ≠ 1 then
        (m2, some (PyRaise.neuralNetworkError
          "out_features of last layer should be 1."))
      else
        (m2, none)

/-- One entry of a fingerprints batch, reduced to the fields
`CalculatorTorch.compute` reads.  The geometric tensors are collapsed to
single rationals; this keeps the data-flow of `compute` while abstracting
the tensor contraction. -/
structure Sample where
  zeta : List ℚ
  dzetadr_forces : ℚ
  dzetadr_stress : ℚ
  dzetadr_volume : ℚ
deriving DecidableEq

/-- State of a `CalculatorTorch` object: the `use_*` flags (Python `None`
until `create` runs) and the `self.results` dictionary, with one optional
entry per implemented property. -/
structure CalculatorTorch where
  use_energy : Option Bool
  use_forces : Option Bool
  use_stress : Option Bool
  results_energy : Option (List ℚ)
  results_forces : Option (List ℚ)
  results_stress : Option (List ℚ)
deriving DecidableEq

/-- `CalculatorTorch.__init__` (calculator_torch.py lines 27-37): the three
`use_*` flags are `None` and `self.results` maps every implemented property
to `None`. -/
def CalculatorTorch.new : CalculatorTorch :=
  ⟨none, none, none, none, none, none⟩

/-- Python truthiness of an `Option Bool` attribute (`None` is falsy). -/
def truthy : Option Bool → Bool
  | some b => b
  | none => false

/-- `CalculatorTorch.create`, restricted to the flag assignments the claims
depend on. -/
def CalculatorTorch.create (c : CalculatorTorch)
    (use_energy use_forces use_stress : Bool) : CalculatorTorch :=
  { c with
    use_energy := some use_energy
    use_forces := some use_forces
    use_stress := some use_stress }

/-- `CalculatorTorch.compute` (calculator_torch.py lines 133-187).  The
per-atom model and its derivative are abstract functions `modelF` and
`modelD` (autograd is not re-derived).  Energies are always computed; the
forces (resp. stress) list is Python `None` unless `self.use_forces`
(resp. `self.use_stress`) is truthy; finally all three are stored in
`self.results`. -/
def CalculatorTorch.compute (modelF modelD : ℚ → ℚ) (c : CalculatorTorch)
    (batch : List Sample) : CalculatorTorch :=
  let energy_config := batch.map (fun s => (s.zeta.map modelF).sum)
  let forces_config : Option (List ℚ) :=
    if truthy c.use_forces then
      some (batch.map (fun s => -((s.zeta.map modelD).sum * s.dzetadr_forces)))
    else none
  let stress_config : Option (List ℚ) :=
    if truthy c.use_stress then
      some (batch.map (fun s =>
        (s.zeta.map modelD).sum * s.dzetadr_stress / s.dzetadr_volume))
    else none
  { c with
    results_energy := some energy_config
    results_forces := forces_config
    results_stress := stress_config }

/-- `CalculatorTorch.get_energy` (line 189): reads `self.results` only. -/
def CalculatorTorch.get_energy (c : CalculatorTorch) (batch : List Sample) :
    Option (List ℚ) :=
  c.results_energy

/-- `CalculatorTorch.get_forces` (line 192): reads `self.results` only. -/
def CalculatorTorch.get_forces (c : CalculatorTorch) (batch : List Sample) :
    Option (List ℚ) :=
  c.results_forces

/-- `CalculatorTorch.get_stress` (line 195): reads `self.results` only. -/
def CalculatorTorch.get_stress (c : CalculatorTorch) (batch : List Sample) :
    Option (List ℚ) :=
  c.results_stress

/-- State of a `CalculatorTorchSeparateSpecies` object after a successful
`__init__`. -/
structure CalculatorTorchSeparateSpecies where
  models : List (String × NeuralNetwork)
  dtype : Option DType
  model : NeuralNetwork
  use_energy : Option Bool
  use_forces : Option Bool
  use_stress : Option Bool
deriving DecidableEq

/-- Loop body of `CalculatorTorchSeparateSpecies.__init__` (lines 223-229):
`self.dtype` starts as `None`; the first model sets it; any later model with
a different descriptor dtype raises `CalculatorTorchError`. -/
def findDtype : Option DType → List (String × NeuralNetwork) → Except PyRaise (Option DType)
  | acc, [] => Except.ok acc
  | none, (_, m) :: rest => findDtype (some m.descriptor.dtype) rest
  | some d, (_, m) :: rest =>
      if d ≠ m.descriptor.dtype then
        Except.error (PyRaise.calculatorTorchError "inconsistent dtype from descriptors.")
      else
        findDtype (some d) rest

/-- `CalculatorTorchSeparateSpecies.__init__` (calculator_torch.py lines
217-240).  A Python dict iterates in insertion order, embedded as an
association list.  After the dtype loop the code runs `self.model = m` with
`m` the last loop variable, which on an empty dict raises
`UnboundLocalError`; otherwise `self.model` is the last supplied model, and
the remaining attributes are initialized as in `CalculatorTorch.__init__`. -/
def sepSpeciesInit (ms : List (String × NeuralNetwork)) :
    Except PyRaise CalculatorTorchSeparateSpecies :=
  match findDtype none ms with
  | Except.error e => Except.error e
  | Except.ok d =>
    match ms.getLast? with
    | none => Except.error PyRaise.unboundLocalError
    | some p => Except.ok ⟨ms, d, p.2, none, none, none⟩

/-- Any call of `add_layers` on a fresh model leaves `self.layers` populated
with exactly the argument list, whether or not an exception is raised. -/
theorem add_layers_fst_of_fresh (m : NeuralNetwork) (ls : List Layer)
    (hfresh : m.layers = none) :
    (add_layers m ls).1 = { m with layers := some ls } := by
  unfold add_layers
  simp only [hfresh, Option.isSome_none, Bool.false_eq_true, if_false]
  cases ls with
  | nil => rfl
  | cons first rest =>
    dsimp only
    split
    · rfl
    · split
      · rfl
      · rfl

/-- Any call of `add_layers` on a model whose `layers` attribute is already
set raises `NeuralNetworkError` and changes nothing. -/
theorem add_layers_already_set (m : NeuralNetwork) (ls : List Layer)
    (hset : m.layers ≠ none) :
    ∃ msg, add_layers m ls = (m, some (PyRaise.neuralNetworkError msg)) := by
  refine ⟨"add_layers() called multiple times. It should be called only once.", ?_⟩
  unfold add_layers
  have : m.layers.isSome := Option.isSome_iff_ne_none.mpr hset
  simp [this]

/-- C8: on a fresh `NeuralNetwork`, a first `add_layers` call that fails
shape validation (first layer `in_features` differs from the descriptor
size, or last layer `out_features` is not 1) raises `NeuralNetworkError`
with `self.layers` already populated, so the failed call does not leave the
model unchanged; and after any first call, every further `add_layers` call
raises `NeuralNetworkError`. -/
theorem add_layers_c8 (m : NeuralNetwork) (first : Layer) (rest ls2 : List Layer)
    (hfresh : m.layers = none)
    (hbad : first.in_features ≠ m.descriptor.size ∨
      ((first :: rest).getLastD first).out_features ≠ 1) :
    (∃ msg, add_layers m (first :: rest) =
        ({ m with layers := some (first :: rest) }, some (PyRaise.neuralNetworkError msg)))
    ∧ ({ m with layers := some (first :: rest) } : NeuralNetwork) ≠ m
    ∧ (∀ m2 : NeuralNetwork, ∀ ls1 : List Layer, m2.layers = none →
        ∃ msg2, add_layers (add_layers m2 ls1).1 ls2 =
          ((add_layers m2 ls1).1, some (PyRaise.neuralNetworkError msg2))) := by
  refine ⟨?_, ?_, ?_⟩
  · unfold add_layers
    simp only [hfresh, Option.isSome_none, Bool.false_eq_true, if_false]
    by_cases h1 : first.in_features ≠ m.descriptor.size
    · refine ⟨"Expect in_features of first layer be equal to descriptor size.", ?_⟩
      rw [if_pos h1]
    · have h2 := hbad.resolve_left h1
      refine ⟨"out_features of last layer should be 1.", ?_⟩
      rw [if_neg h1, if_pos h2]
  · intro h
    have : ({ m with layers := some (first :: rest) } : NeuralNetwork).layers = m.layers := by
      rw [h]
    rw [hfresh] at this
    exact Option.some_ne_none _ this
  · intro m2 ls1 h2fresh
    apply add_layers_already_set
    rw [add_layers_fst_of_fresh m2 ls1 h2fresh]
    exact Option.some_ne_none _

/-- Concrete instance of the C8 theorem: a fresh model with descriptor size
2 given a single 3-to-1 layer. -/
theorem add_layers_c8_witness :
    ((NeuralNetwork.new ⟨2, DType.float64⟩).layers = none
      ∧ ((⟨3, 1⟩ : Layer).in_features ≠ (NeuralNetwork.new ⟨2, DType.float64⟩).descriptor.size ∨
          (([(⟨3, 1⟩ : Layer)]).getLastD ⟨3, 1⟩).out_features ≠ 1))
    ∧ ((∃ msg, add_layers (NeuralNetwork.new ⟨2, DType.float64⟩) [⟨3, 1⟩] =
        ({ NeuralNetwork.new ⟨2, DType.float64⟩ with layers := some [⟨3, 1⟩] },
          some (PyRaise.neuralNetworkError msg)))
      ∧ ({ NeuralNetwork.new ⟨2, DType.float64⟩ with layers := some [⟨3, 1⟩] } : NeuralNetwork)
          ≠ NeuralNetwork.new ⟨2, DType.float64⟩
      ∧ (∀ m2 : NeuralNetwork, ∀ ls1 : List Layer, m2.layers = none →
          ∃ msg2, add_layers (add_layers m2 ls1).1 [] =
            ((add_layers m2 ls1).1, some (PyRaise.neuralNetworkError msg2)))) :=
  ⟨⟨rfl, Or.inl (by decide)⟩,
    add_layers_c8 (NeuralNetwork.new ⟨2, DType.float64⟩) ⟨3, 1⟩ [] [] rfl (Or.inl (by decide))⟩

/-- C9: `get_energy`, `get_forces` and `get_stress` ignore their `batch`
argument and return exactly what the most recent `compute` stored in
`self.results`; on a freshly constructed calculator each returns `None`; and
after a `compute` on a calculator whose `use_forces` (resp. `use_stress`)
flag is `False`, `get_forces` (resp. `get_stress`) returns `None`. -/
theorem calculator_get_c9 (modelF modelD : ℚ → ℚ) (c : CalculatorTorch)
    (batch b b2 : List Sample) :
    (c.get_energy b = c.get_energy b2 ∧ c.get_forces b = c.get_forces b2
      ∧ c.get_stress b = c.get_stress b2)
    ∧ (CalculatorTorch.new.get_energy b = none ∧ CalculatorTorch.new.get_forces b = none
      ∧ CalculatorTorch.new.get_stress b = none)
    ∧ ((c.compute modelF modelD batch).get_energy b =
        some (batch.map (fun s => (s.zeta.map modelF).sum)))
    ∧ ((c.compute modelF modelD batch).get_forces b =
        if truthy c.use_forces then
          some (batch.map (fun s => -((s.zeta.map modelD).sum * s.dzetadr_forces)))
        else none)
    ∧ ((c.compute modelF modelD batch).get_stress b =
        if truthy c.use_stress then
          some (batch.map (fun s =>
            (s.zeta.map modelD).sum * s.dzetadr_stress / s.dzetadr_volume))
        else none)
    ∧ (c.use_forces = some false → (c.compute modelF modelD batch).get_forces b = none)
    ∧ (c.use_stress = some false → (c.compute modelF modelD batch).get_stress b = none) := by
  refine ⟨⟨rfl, rfl, rfl⟩, ⟨rfl, rfl, rfl⟩, rfl, rfl, rfl, ?_, ?_⟩
  · intro h
    simp [CalculatorTorch.get_forces, CalculatorTorch.compute, truthy, h]
  · intro h
    simp [CalculatorTorch.get_stress, CalculatorTorch.compute, truthy, h]

/-- Concrete instance of the C9 theorem: a calculator created with
`use_forces = False` and `use_stress = False`, computed on the empty batch. -/
theorem calculator_get_c9_witness :
    (CalculatorTorch.new.create true false false).use_forces = some false
    ∧ ((CalculatorTorch.new.create true false false).compute id id []).get_forces [] = none :=
  ⟨rfl,
    (calculator_get_c9 id id (CalculatorTorch.new.create true false false) [] [] []).2.2.2.2.2.1
      rfl⟩

/-- Unfolding equation of `findDtype` when the accumulator is still unset. -/
theorem findDtype_cons_none (s : String) (m : NeuralNetwork)
    (rest : List (String × NeuralNetwork)) :
    findDtype none ((s, m) :: rest) = findDtype (some m.descriptor.dtype) rest := rfl

/-- Unfolding equation of `findDtype` once the accumulator holds a dtype. -/
theorem findDtype_cons_some (d : DType) (s : String) (m : NeuralNetwork)
    (rest : List (String × NeuralNetwork)) :
    findDtype (some d) ((s, m) :: rest) =
      if d ≠ m.descriptor.dtype then
        Except.error (PyRaise.calculatorTorchError "inconsistent dtype from descriptors.")
      else findDtype (some d) rest := rfl

/-- The dtype loop succeeds and keeps the accumulator when every remaining
model agrees with it. -/
theorem findDtype_all_eq (d : DType) (l : List (String × NeuralNetwork))
    (h : ∀ p ∈ l, p.2.descriptor.dtype = d) :
    findDtype (some d) l = Except.ok (some d) := by
  induction l with
  | nil => rfl
  | cons q rest ih =>
    obtain ⟨s, m⟩ := q
    rw [findDtype_cons_some, if_neg]
    · exact ih (fun p hp => h p (List.mem_cons_of_mem _ hp))
    · exact fun hne => hne (h (s, m) (List.mem_cons_self _ _)).symm

/-- The dtype loop raises `CalculatorTorchError` when some remaining model
disagrees with the accumulator. -/
theorem findDtype_mismatch (d : DType) (l : List (String × NeuralNetwork))
    (h : ∃ p ∈ l, p.2.descriptor.dtype ≠ d) :
    findDtype (some d) l =
      Except.error (PyRaise.calculatorTorchError "inconsistent dtype from descriptors.") := by
  induction l with
  | nil => simp at h
  | cons q rest ih =>
    obtain ⟨s, m⟩ := q
    rw [findDtype_cons_some]
    by_cases hq : d ≠ m.descriptor.dtype
    · rw [if_pos hq]
    · rw [if_neg hq]
      rcases h with ⟨p, hp, hpd⟩
      rcases List.mem_cons.mp hp with heq | hmem
      · rw [heq] at hpd
        exact absurd (not_not.mp hq).symm hpd
      · exact ih ⟨p, hmem, hpd⟩

/-- C10: on a non-empty species-to-model mapping, the
`CalculatorTorchSeparateSpecies` constructor raises `CalculatorTorchError`
if and only if two supplied models carry descriptors of different dtypes;
on success, `self.dtype` is the dtype shared by every model and
`self.model` is one of the supplied models. -/
theorem sep_species_init_c10 (ms : List (String × NeuralNetwork)) (hne : ms ≠ []) :
    ((∃ msg, sepSpeciesInit ms = Except.error (PyRaise.calculatorTorchError msg)) ↔
        ∃ p1 ∈ ms, ∃ p2 ∈ ms, p1.2.descriptor.dtype ≠ p2.2.descriptor.dtype)
    ∧ (∀ c, sepSpeciesInit ms = Except.ok c →
        (∀ p ∈ ms, c.dtype = some p.2.descriptor.dtype)
        ∧ c.model ∈ ms.map Prod.snd) := by
  obtain ⟨q, rest, rfl⟩ := List.exists_cons_of_ne_nil hne
  obtain ⟨s, m⟩ := q
  by_cases hall : ∀ p ∈ rest, p.2.descriptor.dtype = m.descriptor.dtype
  · have hfd : findDtype none ((s, m) :: rest) = Except.ok (some m.descriptor.dtype) := by
      rw [findDtype_cons_none]
      exact findDtype_all_eq _ _ hall
    obtain ⟨pl, hpl⟩ := Option.isSome_iff_exists.mp
      (List.getLast?_isSome.mpr (List.cons_ne_nil (s, m) rest))
    have hsep : sepSpeciesInit ((s, m) :: rest) =
        Except.ok ⟨(s, m) :: rest, some m.descriptor.dtype, pl.2, none, none, none⟩ := by
      unfold sepSpeciesInit
      rw [hfd, hpl]
    constructor
    · constructor
      · rintro ⟨msg, hmsg⟩
        rw [hsep] at hmsg
        cases hmsg
      · rintro ⟨p1, hp1, p2, hp2, hd⟩
        have e1 : p1.2.descriptor.dtype = m.descriptor.dtype := by
          rcases List.mem_cons.mp hp1 with heq | hmm
          · rw [heq]
          · exact hall _ hmm
        have e2 : p2.2.descriptor.dtype = m.descriptor.dtype := by
          rcases List.mem_cons.mp hp2 with heq | hmm
          · rw [heq]
          · exact hall _ hmm
        exact absurd (e1.trans e2.symm) hd
    · intro c hc
      rw [hsep] at hc
      cases hc
      constructor
      · intro p hp
        rcases List.mem_cons.mp hp with heq | hmm
        · rw [heq]
        · rw [hall _ hmm]
      · have hmem : pl ∈ (s, m) :: rest := by
          obtain ⟨hne2, heq2⟩ := List.mem_getLast?_eq_getLast (Option.mem_def.mpr hpl)
          rw [heq2]
          exact List.getLast_mem hne2
        exact List.mem_map_of_mem Prod.snd hmem
  · push_neg at hall
    obtain ⟨p, hp, hpd⟩ := hall
    have hfd : findDtype none ((s, m) :: rest) =
        Except.error (PyRaise.calculatorTorchError "inconsistent dtype from descriptors.") := by
      rw [findDtype_cons_none]
      exact findDtype_mismatch _ _ ⟨p, hp, hpd⟩
    have hsep : sepSpeciesInit ((s, m) :: rest) =
        Except.error (PyRaise.calculatorTorchError "inconsistent dtype from descriptors.") := by
      unfold sepSpeciesInit
      rw [hfd]
    refine ⟨⟨fun _ => ?_, fun _ => ⟨_, hsep⟩⟩, ?_⟩
    · exact ⟨(s, m), List.mem_cons_self _ _, p, List.mem_cons_of_mem _ hp,
        fun h => hpd h.symm⟩
    · intro c hc
      rw [hsep] at hc
      cases hc

/-- Concrete instance of the C10 theorem: two models whose descriptors use
float32 and float64 respectively. -/
theorem sep_species_init_c10_witness :
    ([("Si", (⟨⟨2, DType.float32⟩, none⟩ : NeuralNetwork)),
      ("O", (⟨⟨3, DType.float64⟩, none⟩ : NeuralNetwork))] ≠ [])
    ∧ ((∃ msg, sepSpeciesInit
          [("Si", (⟨⟨2, DType.float32⟩, none⟩ : NeuralNetwork)),
           ("O", (⟨⟨3, DType.float64⟩, none⟩ : NeuralNetwork))] =
            Except.error (PyRaise.calculatorTorchError msg)) ↔
        ∃ p1 ∈ [("Si", (⟨⟨2, DType.float32⟩, none⟩ : NeuralNetwork)),
                ("O", (⟨⟨3, DType.float64⟩, none⟩ : NeuralNetwork))],
        ∃ p2 ∈ [("Si", (⟨⟨2, DType.float32⟩, none⟩ : NeuralNetwork)),
                ("O", (⟨⟨3, DType.float64⟩, none⟩ : NeuralNetwork))],
          p1.2.descriptor.dtype ≠ p2.2.descriptor.dtype) :=
  ⟨List.cons_ne_nil _ _,
    (sep_species_init_c10 _ (List.cons_ne_nil _ _)).1⟩

/-- Modelled from the spec: value of a log-probability in the `kliff.uq`
MCMC layer, whose implementation is not in the present source tree.  A value
is minus infinity (out-of-bounds or failed evaluation), a finite real
(embedded as a rational), or the ill-defined float `NaN` that the spec
requires never to be recorded. -/
inductive LogP where
  | neginf : LogP
  | fin : ℚ → LogP
  | nan : LogP
deriving DecidableEq

/-- Modelled from the spec: the Metropolis accept/reject decision of the
sampler step (`kliff.uq` / ptemcee, not in the source tree), in log space.
`r` is the pre-drawn log-threshold `log u - (N-1) * log z` of the stretch
move, so the ratio rule `u ≤ z^(N-1) * exp(lpProp - lpCur)` reads
`r ≤ lpProp - lpCur`.  Per the spec failure policy, a proposal whose
log-probability is minus infinity is rejected outright, before the ratio is
formed, and a finite proposal beats a minus-infinity current point. -/
def acceptMove (lpProp lpCur : LogP) (r : ℚ) : Bool :=
  match lpProp, lpCur with
  | LogP.neginf, _ => false
  | LogP.nan, _ => false
  | LogP.fin _, LogP.neginf => true
  | LogP.fin _, LogP.nan => false
  | LogP.fin lp, LogP.fin lc => decide (r ≤ lp - lc)

/-- Modelled from the spec: the log-probability recorded for one walker
after one accept/reject decision of the sampler (not in the source tree). -/
def mcmcStep (cur : LogP) (pr : LogP × ℚ) : LogP :=
  if acceptMove pr.1 cur pr.2 then pr.1 else cur

/-- Modelled from the spec: the log-probability column recorded in the
chain for one walker across a run, given its initial log-probability and
the per-iteration proposals with their draw thresholds (sampler not in the
source tree). -/
def chainLogps : LogP → List (LogP × ℚ) → List LogP
  | _, [] => []
  | cur, pr :: rest => mcmcStep cur pr :: chainLogps (mcmcStep cur pr) rest

/-- Modelled from the spec: the bounds check of the prior/likelihood
adapter of `kliff.uq` (not in the source tree): every component of `theta`
must lie inside its `[low, high]` pair. -/
def inBoundsB (bounds : List (ℚ × ℚ)) (theta : List ℚ) : Bool :=
  (theta.zip bounds).all (fun tb => decide (tb.2.1 ≤ tb.1) && decide (tb.1 ≤ tb.2.2))

/-- Modelled from the spec: the adapter log-prior (not in the source tree):
minus infinity outside the configured bounds, a constant (uniform) inside. -/
def logprior (bounds : List (ℚ × ℚ)) (theta : List ℚ) : LogP :=
  if inBoundsB bounds theta then LogP.fin 0 else LogP.neginf

/-- Modelled from the spec: the adapter log-posterior (not in the source
tree): if the log-prior is minus infinity it short-circuits and returns
minus infinity without evaluating the external loss; otherwise the
log-likelihood is the negative of the loss value. -/
def logprob (loss : List ℚ → ℚ) (bounds : List (ℚ × ℚ)) (theta : List ℚ) : LogP :=
  match logprior bounds theta with
  | LogP.neginf => LogP.neginf
  | LogP.fin lp => LogP.fin (-(loss theta) + lp)
  | LogP.nan => LogP.nan

/-- Modelled from the spec: state of the parallel-tempered sampler (not in
the source tree): the current population over `K` temperatures, `L`
walkers and `N` parameters, and the Chain Store as the list of recorded
per-iteration snapshots. -/
structure SamplerState (K L N : ℕ) where
  pos : Fin K → Fin L → Fin N → ℚ
  chainList : List (Fin K → Fin L → Fin N → ℚ)

/-- Modelled from the spec: `run_mcmc(initial_population, n_iterations)`
(sampler not in the source tree).  Each iteration advances the population
by the per-iteration move (stretch moves plus temperature swaps, abstracted
as `move`) and appends the full population snapshot to the Chain Store. -/
def run_mcmc {K L N : ℕ}
    (move : (Fin K → Fin L → Fin N → ℚ) → (Fin K → Fin L → Fin N → ℚ))
    (p0 : Fin K → Fin L → Fin N → ℚ) : ℕ → SamplerState K L N
  | 0 => ⟨p0, []⟩
  | n + 1 =>
      let s := run_mcmc move p0 n
      let q := move s.pos
      ⟨q, s.chainList ++ [q]⟩

/-- Modelled from the spec: the `chain` accessor (not in the source tree),
a 4-D array indexed by (temperature, walker, step, parameter). -/
def chain {K L N : ℕ} (s : SamplerState K L N) :
    Fin K → Fin L → Fin s.chainList.length → Fin N → ℚ :=
  fun k l t n => (s.chainList.get t) k l n

/-- Modelled from the spec: the MSER statistic of `kliff.uq.mcmc_utils.mser`
(not in the source tree):
`MSER(d) = (1/(T-d)^2) * sum over i in [d, T) of (x_i - mean(x_(d:T)))^2`. -/
def mserStat (x : List ℚ) (d : ℕ) : ℚ :=
  ((x.drop d).map (fun v => (v - (x.drop d).sum / ((x.drop d).length : ℚ)) ^ 2)).sum
    / ((x.drop d).length : ℚ) ^ 2

/-- Modelled from the spec: the effective maximum candidate start of
`mser` (not in the source tree): a negative `dmax` means `T + dmax`. -/
def mserDEff (T : ℕ) (dmax : ℤ) : ℕ :=
  (if dmax < 0 then (T : ℤ) + dmax else dmax).toNat

/-- Modelled from the spec: the number of candidate truncation points of
`mser` (not in the source tree); when the effective maximum is at most
`dmin` the range collapses to the single candidate `dmin`. -/
def mserK (T dmin dstep : ℕ) (dmax : ℤ) : ℕ :=
  if mserDEff T dmax ≤ dmin then 1 else (mserDEff T dmax - dmin - 1) / dstep + 1

/-- Modelled from the spec: the candidate truncation points of `mser` (not
in the source tree): `dmin, dmin + dstep, dmin + 2*dstep, ...` strictly
below the effective maximum. -/
def mserCandidates (T dmin dstep : ℕ) (dmax : ℤ) : List ℕ :=
  (List.range (mserK T dmin dstep dmax)).map (fun i => dmin + i * dstep)

/-- Modelled from the spec: `kliff.uq.mcmc_utils.mser(series, dmin, dstep,
dmax)` (not in the source tree).  A series of length 0 or 1 is ill-defined
and signals an error; otherwise the candidate truncation point with the
smallest MSER statistic is returned (first candidate wins ties). -/
def mser (x : List ℚ) (dmin dstep : ℕ) (dmax : ℤ) : Except String ℕ :=
  if x.length < 2 then
    Except.error "mser: series of length 0 or 1 is ill-defined"
  else
    Except.ok ((mserCandidates x.length dmin dstep dmax).foldl
      (fun best d => if mserStat x d < mserStat x best then d else best) dmin)

/-- Modelled from the spec: arithmetic mean of a series, as used by the
`kliff.uq` diagnostics (not in the source tree). -/
def listMean (xs : List ℚ) : ℚ :=
  xs.sum / (xs.length : ℚ)

/-- Modelled from the spec: unbiased sample variance of a series, as used
by the `kliff.uq` diagnostics (not in the source tree). -/
def listVar (xs : List ℚ) : ℚ :=
  ((xs.map (fun v => (v - listMean xs) ^ 2)).sum) / ((xs.length : ℚ) - 1)

/-- Modelled from the spec: sample mean of one walker of the post-burn-in
samples `x[L, T, N]`, for one parameter (rhat helper, not in the source
tree). -/
def walkerMean {L T N : ℕ} (x : Fin L → Fin T → Fin N → ℚ) (l : Fin L) (p : Fin N) : ℚ :=
  listMean (List.ofFn (fun t => x l t p))

/-- Modelled from the spec: sample variance of one walker, for one
parameter (rhat helper, not in the source tree). -/
def walkerVar {L T N : ℕ} (x : Fin L → Fin T → Fin N → ℚ) (l : Fin L) (p : Fin N) : ℚ :=
  listVar (List.ofFn (fun t => x l t p))

/-- Modelled from the spec: the within-chain variance `W` of `rhat`, the
mean of the per-walker sample variances (not in the source tree). -/
def chainW {L T N : ℕ} (x : Fin L → Fin T → Fin N → ℚ) (p : Fin N) : ℚ :=
  listMean (List.ofFn (fun l => walkerVar x l p))

/-- Modelled from the spec: the between-chain variance `B` of `rhat`, the
variance of the per-walker means scaled by the chain length (not in the
source tree). -/
def chainB {L T N : ℕ} (x : Fin L → Fin T → Fin N → ℚ) (p : Fin N) : ℚ :=
  (T : ℚ) * listVar (List.ofFn (fun l => walkerMean x l p))

/-- Modelled from the spec: the pooled variance estimate
`var_hat = ((steps-1)/steps) * W + B/steps` of `rhat` (not in the source
tree). -/
def varHat {L T N : ℕ} (x : Fin L → Fin T → Fin N → ℚ) (p : Fin N) : ℚ :=
  (((T : ℚ) - 1) / (T : ℚ)) * chainW x p + chainB x p / (T : ℚ)

/-- Modelled from the spec: `kliff.uq.mcmc_utils.rhat` per parameter (not
in the source tree), `R_hat = sqrt(var_hat / W)`.  Per the spec edge-case
policy, a degenerate chain with `W = 0` is signalled explicitly (`none`,
the plus-infinity/NaN flag) instead of dividing by zero. -/
noncomputable def rhat {L T N : ℕ} (x : Fin L → Fin T → Fin N → ℚ) (p : Fin N) :
    Option ℝ :=
  if chainW x p = 0 then none
  else some (Real.sqrt ((varHat x p / chainW x p : ℚ) : ℝ))

/-- C3: a proposal whose log-probability is minus infinity is rejected with
probability 1 (for every current log-probability and every draw), and
consequently a run started from a non-NaN log-probability whose proposal
log-probabilities are never NaN records no NaN in the chain log-probability
column, even when the current walker sits at minus infinity. -/
theorem neginf_proposal_rejected (lp0 : LogP) (props : List (LogP × ℚ))
    (h0 : lp0 ≠ LogP.nan) (hp : ∀ pr ∈ props, pr.1 ≠ LogP.nan) :
    (∀ (lc : LogP) (r : ℚ), acceptMove LogP.neginf lc r = false)
    ∧ ∀ l ∈ chainLogps lp0 props, l ≠ LogP.nan := by
  refine ⟨fun lc r => rfl, ?_⟩
  induction props generalizing lp0 with
  | nil => intro l hl; cases hl
  | cons pr rest ih =>
    intro l hl
    have hstep : mcmcStep lp0 pr ≠ LogP.nan := by
      unfold mcmcStep
      split
      · exact hp pr (List.mem_cons_self _ _)
      · exact h0
    rcases List.mem_cons.mp hl with heq | hmem
    · rw [heq]; exact hstep
    · exact ih (mcmcStep lp0 pr) hstep (fun q hq => hp q (List.mem_cons_of_mem _ hq)) l hmem

/-- Concrete instance of the C3 theorem: a walker starting at minus
infinity, receiving a minus-infinity proposal and then a finite one. -/
theorem neginf_proposal_rejected_witness :
    (LogP.neginf ≠ LogP.nan)
    ∧ ((∀ (lc : LogP) (r : ℚ), acceptMove LogP.neginf lc r = false)
      ∧ ∀ l ∈ chainLogps LogP.neginf [(LogP.neginf, 0), (LogP.fin 1, 0)], l ≠ LogP.nan) :=
  ⟨by decide,
    neginf_proposal_rejected LogP.neginf [(LogP.neginf, 0), (LogP.fin 1, 0)]
      (by decide) (by decide)⟩

/-- C5: whenever some component of `theta` lies outside its configured
bounds, the adapter log-probability is minus infinity, and it
short-circuits: the result does not depend on the external loss evaluator
at all. -/
theorem logprob_out_of_bounds (loss : List ℚ → ℚ) (bounds : List (ℚ × ℚ))
    (theta : List ℚ) (i : ℕ) (hi : i < theta.length) (hib : i < bounds.length)
    (hout : theta.getD i 0 < (bounds.getD i (0, 0)).1
      ∨ (bounds.getD i (0, 0)).2 < theta.getD i 0) :
    logprob loss bounds theta = LogP.neginf
    ∧ ∀ loss2 : List ℚ → ℚ, logprob loss2 bounds theta = logprob loss bounds theta := by
  have hzlen : i < (theta.zip bounds).length := by
    rw [List.length_zip]
    exact lt_min hi hib
  have hxmem : (theta.getD i 0, bounds.getD i (0, 0)) ∈ theta.zip bounds := by
    have hget : (theta.zip bounds).get ⟨i, hzlen⟩ = (theta.get ⟨i, hi⟩, bounds.get ⟨i, hib⟩) :=
      List.get_zip
    have h1 : theta.getD i 0 = theta.get ⟨i, hi⟩ := List.getD_eq_get theta 0 hi
    have h2 : bounds.getD i (0, 0) = bounds.get ⟨i, hib⟩ := List.getD_eq_get bounds (0, 0) hib
    rw [h1, h2, ← hget]
    exact List.get_mem _ _ _
  have hfalse : inBoundsB bounds theta = false := by
    rw [Bool.eq_false_iff]
    intro h
    unfold inBoundsB at h
    have hx := List.all_eq_true.mp h _ hxmem
    simp only [Bool.and_eq_true, decide_eq_true_eq] at hx
    rcases hout with hlt | hlt
    · exact absurd hx.1 (not_le.mpr hlt)
    · exact absurd hx.2 (not_le.mpr hlt)
  constructor
  · unfold logprob logprior
    rw [hfalse]
    rfl
  · intro loss2
    unfold logprob logprior
    rw [hfalse]
    rfl

/-- Concrete instance of the C5 theorem: a one-parameter adapter with
bounds `[0, 1]` evaluated at `theta = [2]`. -/
theorem logprob_out_of_bounds_witness :
    (0 < [(2 : ℚ)].length ∧ 0 < [((0 : ℚ), (1 : ℚ))].length
      ∧ ([(2 : ℚ)].getD 0 0 < ([((0 : ℚ), (1 : ℚ))].getD 0 (0, 0)).1
        ∨ ([((0 : ℚ), (1 : ℚ))].getD 0 (0, 0)).2 < [(2 : ℚ)].getD 0 0))
    ∧ (logprob (fun _ => 7) [((0 : ℚ), (1 : ℚ))] [(2 : ℚ)] = LogP.neginf
      ∧ ∀ loss2 : List ℚ → ℚ,
          logprob loss2 [((0 : ℚ), (1 : ℚ))] [(2 : ℚ)] =
            logprob (fun _ => 7) [((0 : ℚ), (1 : ℚ))] [(2 : ℚ)]) :=
  ⟨⟨by decide, by decide, by decide⟩,
    logprob_out_of_bounds (fun _ => 7) [((0 : ℚ), (1 : ℚ))] [(2 : ℚ)] 0
      (by decide) (by decide) (by decide)⟩

/-- C4: after `run_mcmc` with `T` iterations the Chain Store holds exactly
`T` recorded snapshots (so the `chain` accessor is a 4-D array of shape
`[K, L, T, N]` indexed by temperature, walker, step and parameter), and the
store grew append-only: the store after `i ≤ j` iterations is a prefix of
the store after `j` iterations.  The accessor is a pure read of the final
state, which no further operation mutates. -/
theorem run_mcmc_chain_shape {K L N : ℕ}
    (move : (Fin K → Fin L → Fin N → ℚ) → (Fin K → Fin L → Fin N → ℚ))
    (p0 : Fin K → Fin L → Fin N → ℚ) (T : ℕ) :
    (run_mcmc move p0 T).chainList.length = T
    ∧ (∀ i j : ℕ, i ≤ j → ∃ tail,
        (run_mcmc move p0 j).chainList = (run_mcmc move p0 i).chainList ++ tail)
    ∧ (∀ (k : Fin K) (l : Fin L) (t : Fin (run_mcmc move p0 T).chainList.length) (n : Fin N),
        chain (run_mcmc move p0 T) k l t n = ((run_mcmc move p0 T).chainList.get t) k l n) := by
  refine ⟨?_, ?_, fun k l t n => rfl⟩
  · induction T with
    | zero => rfl
    | succ n ih =>
      show ((run_mcmc move p0 n).chainList ++ [move (run_mcmc move p0 n).pos]).length = n + 1
      rw [List.length_append, ih]
      rfl
  · intro i j hij
    induction j, hij using Nat.le_induction with
    | base => exact ⟨[], (List.append_nil _).symm⟩
    | succ j hij ih =>
      obtain ⟨tail, htail⟩ := ih
      refine ⟨tail ++ [move (run_mcmc move p0 j).pos], ?_⟩
      show (run_mcmc move p0 j).chainList ++ [move (run_mcmc move p0 j).pos] = _
      rw [htail, List.append_assoc]

/-- Concrete instance of the C4 theorem: a one-temperature, one-walker,
one-parameter sampler run for 3 iterations with the identity move. -/
theorem run_mcmc_chain_shape_witness :
    ((1 : ℕ) ≤ 2)
    ∧ ∃ tail,
        (run_mcmc (K := 1) (L := 1) (N := 1) id (fun _ _ _ => 0) 2).chainList =
          (run_mcmc (K := 1) (L := 1) (N := 1) id (fun _ _ _ => 0) 1).chainList ++ tail :=
  ⟨by decide,
    (run_mcmc_chain_shape (K := 1) (L := 1) (N := 1) id (fun _ _ _ => 0) 3).2.1 1 2
      (by decide)⟩

/-- C7: on a degenerate input whose within-chain variance `W` vanishes for
some parameter, `rhat` does not divide: it returns the explicit
non-finite flag for that parameter, and in particular never a finite
number. -/
theorem rhat_degenerate {L T N : ℕ} (x : Fin L → Fin T → Fin N → ℚ) (p : Fin N)
    (hW : chainW x p = 0) :
    rhat x p = none ∧ ∀ q : ℝ, rhat x p ≠ some q := by
  constructor
  · unfold rhat
    rw [if_pos hW]
  · intro q hq
    unfold rhat at hq
    rw [if_pos hW] at hq
    cases hq

/-- Concrete instance of the C7 theorem: a constant two-walker,
two-step, one-parameter chain. -/
theorem rhat_degenerate_witness :
    chainW (L := 2) (T := 2) (N := 1) (fun _ _ _ => 3) 0 = 0
    ∧ rhat (L := 2) (T := 2) (N := 1) (fun _ _ _ => 3) 0 = none := by
  have hW : chainW (L := 2) (T := 2) (N := 1) (fun _ _ _ => 3) 0 = 0 := by
    norm_num [chainW, walkerVar, listVar, walkerMean, listMean, List.ofFn_succ]
  exact ⟨hW, (rhat_degenerate (L := 2) (T := 2) (N := 1) (fun _ _ _ => 3) 0 hW).1⟩

/-- Sum of a mapped `List.ofFn` as a `Finset` sum over `Fin n`. -/
theorem sum_map_ofFn {n : ℕ} (f : Fin n → ℚ) (g : ℚ → ℚ) :
    ((List.ofFn f).map g).sum = ∑ i : Fin n, g (f i) := by
  rw [List.map_ofFn, List.sum_ofFn]
  rfl

/-- C2: on post-burn-in, thinned samples of shape (walkers, steps,
parameters) with at least two walkers and two steps, and a nondegenerate
within-chain variance, `rhat` returns per parameter the value
`sqrt(var_hat / W)`, spelled out with `W` the mean of per-walker sample
variances, `B` the variance of per-walker means scaled by chain length, and
`var_hat = ((steps-1)/steps) * W + B/steps`. -/
theorem rhat_formula {L T N : ℕ} (x : Fin L → Fin T → Fin N → ℚ) (p : Fin N)
    (hL : 2 ≤ L) (hT : 2 ≤ T) (hW : chainW x p ≠ 0) :
    rhat x p = some (Real.sqrt ((
      ((((T : ℚ) - 1) / (T : ℚ)) *
          ((∑ l : Fin L, (∑ t : Fin T, (x l t p - (∑ u : Fin T, x l u p) / (T : ℚ)) ^ 2) /
              ((T : ℚ) - 1)) / (L : ℚ))
        + ((T : ℚ) * (∑ l : Fin L, ((∑ t : Fin T, x l t p) / (T : ℚ)
              - (∑ w : Fin L, (∑ t : Fin T, x w t p) / (T : ℚ)) / (L : ℚ)) ^ 2) /
              ((L : ℚ) - 1)) / (T : ℚ))
      / ((∑ l : Fin L, (∑ t : Fin T, (x l t p - (∑ u : Fin T, x l u p) / (T : ℚ)) ^ 2) /
            ((T : ℚ) - 1)) / (L : ℚ)) : ℚ) : ℝ)) := by
  have hWeq : chainW x p =
      (∑ l : Fin L, (∑ t : Fin T, (x l t p - (∑ u : Fin T, x l u p) / (T : ℚ)) ^ 2) /
          ((T : ℚ) - 1)) / (L : ℚ) := by
    unfold chainW walkerVar listVar listMean
    simp only [sum_map_ofFn, List.sum_ofFn, List.length_ofFn]
  have hBeq : chainB x p =
      (T : ℚ) * (∑ l : Fin L, ((∑ t : Fin T, x l t p) / (T : ℚ)
          - (∑ w : Fin L, (∑ t : Fin T, x w t p) / (T : ℚ)) / (L : ℚ)) ^ 2) /
          ((L : ℚ) - 1) := by
    unfold chainB listVar walkerMean listMean
    simp only [sum_map_ofFn, List.sum_ofFn, List.length_ofFn]
    ring
  have key : varHat x p / chainW x p =
      ((((T : ℚ) - 1) / (T : ℚ)) *
          ((∑ l : Fin L, (∑ t : Fin T, (x l t p - (∑ u : Fin T, x l u p) / (T : ℚ)) ^ 2) /
              ((T : ℚ) - 1)) / (L : ℚ))
        + ((T : ℚ) * (∑ l : Fin L, ((∑ t : Fin T, x l t p) / (T : ℚ)
              - (∑ w : Fin L, (∑ t : Fin T, x w t p) / (T : ℚ)) / (L : ℚ)) ^ 2) /
              ((L : ℚ) - 1)) / (T : ℚ))
      / ((∑ l : Fin L, (∑ t : Fin T, (x l t p - (∑ u : Fin T, x l u p) / (T : ℚ)) ^ 2) /
            ((T : ℚ) - 1)) / (L : ℚ)) := by
    unfold varHat
    rw [hWeq, hBeq]
  unfold rhat
  rw [if_neg hW, key]

/-- Concrete instance of the C2 theorem: two walkers and two steps of one
parameter, with distinct values so the within-chain variance is nonzero;
the theorem then evaluates `rhat` to a present value. -/
theorem rhat_formula_witness :
    ((2 : ℕ) ≤ 2
      ∧ chainW (L := 2) (T := 2) (N := 1)
          (fun l t _ => ((l : ℕ) : ℚ) * 2 + ((t : ℕ) : ℚ)) 0 ≠ 0)
    ∧ (rhat (L := 2) (T := 2) (N := 1)
        (fun l t _ => ((l : ℕ) : ℚ) * 2 + ((t : ℕ) : ℚ)) 0).isSome = true := by
  have hW : chainW (L := 2) (T := 2) (N := 1)
      (fun l t _ => ((l : ℕ) : ℚ) * 2 + ((t : ℕ) : ℚ)) 0 ≠ 0 := by
    norm_num [chainW, walkerVar, listVar, walkerMean, listMean, List.ofFn_succ]
  refine ⟨⟨by decide, hW⟩, ?_⟩
  rw [rhat_formula (L := 2) (T := 2) (N := 1)
    (fun l t _ => ((l : ℕ) : ℚ) * 2 + ((t : ℕ) : ℚ)) 0 (by decide) (by decide) hW]
  rfl

/-- The first-wins arg-min fold used by `mser` returns its seed or a list
element, never exceeds the seed value, and minimizes `f` over the list. -/
theorem foldl_argmin_spec (f : ℕ → ℚ) (l : List ℕ) (init : ℕ) :
    (l.foldl (fun best d => if f d < f best then d else best) init = init ∨
      l.foldl (fun best d => if f d < f best then d else best) init ∈ l)
    ∧ f (l.foldl (fun best d => if f d < f best then d else best) init) ≤ f init
    ∧ ∀ e ∈ l, f (l.foldl (fun best d => if f d < f best then d else best) init) ≤ f e := by
  induction l generalizing init with
  | nil => exact ⟨Or.inl rfl, le_refl _, fun e he => absurd he (List.not_mem_nil e)⟩
  | cons a t ih =>
    rw [List.foldl_cons]
    by_cases h : f a < f init
    · rw [if_pos h]
      obtain ⟨hm, hle, hall⟩ := ih a
      refine ⟨?_, le_trans hle (le_of_lt h), ?_⟩
      · rcases hm with he | he
        · exact Or.inr (by rw [he]; exact List.mem_cons_self a t)
        · exact Or.inr (List.mem_cons_of_mem a he)
      · intro e he2
        rcases List.mem_cons.mp he2 with heq | hm2
        · rw [heq]; exact hle
        · exact hall e hm2
    · rw [if_neg h]
      obtain ⟨hm, hle, hall⟩ := ih init
      refine ⟨?_, hle, ?_⟩
      · rcases hm with he | he
        · exact Or.inl he
        · exact Or.inr (List.mem_cons_of_mem a he)
      · intro e he2
        rcases List.mem_cons.mp he2 with heq | hm2
        · rw [heq]; exact le_trans hle (not_lt.mp h)
        · exact hall e hm2

/-- The fold of `mser` keeps its seed when the statistic is constant. -/
theorem foldl_argmin_const (f : ℕ → ℚ) (l : List ℕ) (init : ℕ)
    (h : ∀ d, f d = 0) :
    l.foldl (fun best d => if f d < f best then d else best) init = init := by
  induction l generalizing init with
  | nil => rfl
  | cons a t ih =>
    have hno : ¬ f a < f init := by rw [h a, h init]; exact lt_irrefl 0
    rw [List.foldl_cons, if_neg hno]
    exact ih init

/-- `dmin` is always the first candidate truncation point. -/
theorem mserCandidates_head_mem (T dmin dstep : ℕ) (dmax : ℤ) :
    dmin ∈ mserCandidates T dmin dstep dmax := by
  unfold mserCandidates
  have hk : 0 < mserK T dmin dstep dmax := by
    unfold mserK
    split
    · exact Nat.one_pos
    · exact Nat.succ_pos _
  exact List.mem_map.mpr ⟨0, List.mem_range.mpr hk, by simp⟩

/-- Every candidate truncation point is a valid index into the series,
provided `dmin` is one and `dmax` is below the series length. -/
theorem mserCandidates_lt (T dmin dstep : ℕ) (dmax : ℤ)
    (hdmin : dmin < T) (hdmax : dmax < (T : ℤ)) :
    ∀ e ∈ mserCandidates T dmin dstep dmax, e < T := by
  intro e he
  obtain ⟨i, hir, hei⟩ := List.mem_map.mp he
  have hi : i < mserK T dmin dstep dmax := List.mem_range.mp hir
  have hEff : mserDEff T dmax ≤ T := by
    unfold mserDEff
    split
    · rw [Int.toNat_le]; omega
    · rw [Int.toNat_le]; omega
  rw [← hei]
  unfold mserK at hi
  by_cases hc : mserDEff T dmax ≤ dmin
  · rw [if_pos hc] at hi
    have hi0 : i = 0 := by omega
    rw [hi0]
    simpa using hdmin
  · rw [if_neg hc] at hi
    have h2 : i ≤ (mserDEff T dmax - dmin - 1) / dstep := by omega
    have h3 : i * dstep ≤ ((mserDEff T dmax - dmin - 1) / dstep) * dstep :=
      Nat.mul_le_mul_right _ h2
    have h5 : i * dstep ≤ mserDEff T dmax - dmin - 1 :=
      le_trans h3 (Nat.div_mul_le_self _ _)
    calc dmin + i * dstep ≤ dmin + (mserDEff T dmax - dmin - 1) :=
          Nat.add_le_add_left h5 dmin
      _ < T := by omega

/-- When the effective maximum collapses below `dmin` the candidate list is
the single point `dmin`. -/
theorem mserCandidates_collapse (T dmin dstep : ℕ) (dmax : ℤ)
    (h : mserDEff T dmax ≤ dmin) :
    mserCandidates T dmin dstep dmax = [dmin] := by
  unfold mserCandidates mserK
  rw [if_pos h]
  simp [List.range_succ]

/-- Sum of a mapped list as a `Finset` sum over positions. -/
theorem sum_map_eq_sum_range (f : ℚ → ℚ) (x : List ℚ) :
    (x.map f).sum = ∑ i in Finset.range x.length, f (x.getD i 0) := by
  induction x with
  | nil => simp
  | cons a t ih =>
    rw [List.map_cons, List.sum_cons, ih, List.length_cons, Finset.sum_range_succ']
    simp only [List.getD_cons_succ, List.getD_cons_zero]
    exact add_comm _ _

/-- Sum of a mapped dropped list as a `Finset` sum over the index interval
`[d, length)`. -/
theorem sum_map_drop (f : ℚ → ℚ) (x : List ℚ) (d : ℕ) :
    ((x.drop d).map f).sum = ∑ i in Finset.Ico d x.length, f (x.getD i 0) := by
  rw [sum_map_eq_sum_range, List.length_drop, Finset.sum_Ico_eq_sum_range]
  apply Finset.sum_congr rfl
  intro i _
  congr 1
  rw [List.getD_eq_getElem?_getD, List.getElem?_drop, ← List.getD_eq_getElem?_getD]

/-- The MSER statistic written as the batch-mean formula of the
specification, over the index interval `[e, T)`. -/
theorem mserStat_Ico (x : List ℚ) (e : ℕ) (he : e < x.length) :
    mserStat x e =
      (∑ i in Finset.Ico e x.length,
          (x.getD i 0 -
            (∑ j in Finset.Ico e x.length, x.getD j 0) / ((x.length : ℚ) - (e : ℚ))) ^ 2)
        / ((x.length : ℚ) - (e : ℚ)) ^ 2 := by
  have hlen : (((x.drop e).length : ℕ) : ℚ) = (x.length : ℚ) - (e : ℚ) := by
    rw [List.length_drop, Nat.cast_sub (le_of_lt he)]
  have hsum : (x.drop e).sum = ∑ j in Finset.Ico e x.length, x.getD j 0 := by
    have h := sum_map_drop id x e
    simpa using h
  unfold mserStat
  rw [hlen, hsum, sum_map_drop
    (fun v => (v - (∑ j in Finset.Ico e x.length, x.getD j 0) / ((x.length : ℚ) - (e : ℚ))) ^ 2)
    x e]

/-- C1: for a series of length at least 2, with `dmin` a valid index,
positive `dstep` and `dmax` below the series length, `mser` returns a
candidate truncation point drawn from `dmin, dmin + dstep, ...` (up to the
effective maximum, where a negative `dmax` means `T + dmax`) that is a
valid integer index into the series and minimizes the MSER statistic
`MSER(d) = (1/(T-d)^2) * sum over i in [d, T) of (x_i - mean(x_(d:T)))^2`
over all candidates. -/
theorem mser_minimizes (x : List ℚ) (dmin dstep : ℕ) (dmax : ℤ)
    (hT : 2 ≤ x.length) (hdmin : dmin < x.length) (hdstep : 0 < dstep)
    (hdmax : dmax < (x.length : ℤ)) :
    ∃ d, mser x dmin dstep dmax = Except.ok d
      ∧ d ∈ mserCandidates x.length dmin dstep dmax
      ∧ d < x.length
      ∧ (∀ e ∈ mserCandidates x.length dmin dstep dmax, mserStat x d ≤ mserStat x e)
      ∧ ∀ e, e < x.length → mserStat x e =
          (∑ i in Finset.Ico e x.length,
              (x.getD i 0 - (∑ j in Finset.Ico e x.length, x.getD j 0) /
                ((x.length : ℚ) - (e : ℚ))) ^ 2)
            / ((x.length : ℚ) - (e : ℚ)) ^ 2 := by
  obtain ⟨hm, hle, hall⟩ := foldl_argmin_spec (mserStat x)
    (mserCandidates x.length dmin dstep dmax) dmin
  have hmem : (mserCandidates x.length dmin dstep dmax).foldl
      (fun best d => if mserStat x d < mserStat x best then d else best) dmin
        ∈ mserCandidates x.length dmin dstep dmax := by
    rcases hm with he | he
    · rw [he]; exact mserCandidates_head_mem _ _ _ _
    · exact he
  refine ⟨_, ?_, hmem, mserCandidates_lt _ _ _ _ hdmin hdmax _ hmem, hall,
    fun e he2 => mserStat_Ico x e he2⟩
  unfold mser
  rw [if_neg (not_lt.mpr hT)]

/-- Concrete instance of the C1 theorem: the series `0, 1, 2, 3` with
`dmin = 0`, `dstep = 10`, `dmax = -1`. -/
theorem mser_minimizes_witness :
    ∃ d, mser [(0 : ℚ), 1, 2, 3] 0 10 (-1) = Except.ok d
      ∧ d ∈ mserCandidates [(0 : ℚ), 1, 2, 3].length 0 10 (-1)
      ∧ d < [(0 : ℚ), 1, 2, 3].length
      ∧ (∀ e ∈ mserCandidates [(0 : ℚ), 1, 2, 3].length 0 10 (-1),
          mserStat [(0 : ℚ), 1, 2, 3] d ≤ mserStat [(0 : ℚ), 1, 2, 3] e)
      ∧ ∀ e, e < [(0 : ℚ), 1, 2, 3].length → mserStat [(0 : ℚ), 1, 2, 3] e =
          (∑ i in Finset.Ico e [(0 : ℚ), 1, 2, 3].length,
              ([(0 : ℚ), 1, 2, 3].getD i 0 -
                (∑ j in Finset.Ico e [(0 : ℚ), 1, 2, 3].length,
                  [(0 : ℚ), 1, 2, 3].getD j 0) /
                  (([(0 : ℚ), 1, 2, 3].length : ℚ) - (e : ℚ))) ^ 2)
            / (([(0 : ℚ), 1, 2, 3].length : ℚ) - (e : ℚ)) ^ 2 :=
  mser_minimizes [(0 : ℚ), 1, 2, 3] 0 10 (-1) (by decide) (by decide) (by decide) (by decide)

/-- The MSER statistic of a constant series vanishes at every truncation
point. -/
theorem mserStat_replicate (T : ℕ) (c : ℚ) (d : ℕ) :
    mserStat (List.replicate T c) d = 0 := by
  unfold mserStat
  rw [List.drop_replicate]
  by_cases h : T - d = 0
  · rw [h]
    simp
  · rw [List.sum_replicate, List.length_replicate]
    have hc : ((T - d : ℕ) : ℚ) ≠ 0 := Nat.cast_ne_zero.mpr h
    have hmu : (T - d) • c / ((T - d : ℕ) : ℚ) = c := by
      rw [nsmul_eq_mul]
      field_simp
    rw [hmu]
    simp [List.map_replicate]

/-- C6 (amended): `mser` signals an error on a series of length 0 or 1; on
a constant series of length at least 2 it returns `dmin` without any
division error; and whenever the effective maximum candidate start
(`T + dmax` for negative `dmax`, `dmax` itself otherwise) is at most
`dmin`, the candidate range collapses and the result is exactly `dmin`. -/
theorem mser_edge_cases (x : List ℚ) (dmin dstep : ℕ) (dmax : ℤ) (T : ℕ) (c : ℚ) :
    (x.length < 2 → ∃ msg, mser x dmin dstep dmax = Except.error msg)
    ∧ (2 ≤ T → mser (List.replicate T c) dmin dstep dmax = Except.ok dmin)
    ∧ (2 ≤ x.length → mserDEff x.length dmax ≤ dmin →
        mser x dmin dstep dmax = Except.ok dmin) := by
  refine ⟨?_, ?_, ?_⟩
  · intro h
    exact ⟨_, by unfold mser; rw [if_pos h]⟩
  · intro hT2
    unfold mser
    simp only [List.length_replicate]
    rw [if_neg (not_lt.mpr hT2),
      foldl_argmin_const (mserStat (List.replicate T c)) _ dmin
        (fun d => mserStat_replicate T c d)]
  · intro hT2 hcol
    unfold mser
    rw [if_neg (not_lt.mpr hT2), mserCandidates_collapse _ _ _ _ hcol]
    simp

/-- Concrete instances of the C6 theorem: a length-1 series errors, a
constant length-2 series returns `dmin = 0`, and a collapsed candidate
range returns `dmin = 2`. -/
theorem mser_edge_cases_witness :
    (∃ msg, mser [(1 : ℚ)] 0 1 (-1) = Except.error msg)
    ∧ mser (List.replicate 2 (5 : ℚ)) 0 1 (-1) = Except.ok 0
    ∧ mser [(1 : ℚ), 2, 3] 2 1 (-2) = Except.ok 2 :=
  ⟨(mser_edge_cases [(1 : ℚ)] 0 1 (-1) 2 5).1 (by decide),
    (mser_edge_cases [(1 : ℚ)] 0 1 (-1) 2 5).2.1 (by decide),
    (mser_edge_cases [(1 : ℚ), 2, 3] 2 1 (-2) 2 5).2.2 (by decide) (by decide)⟩

/-- Counterexample to C6 as stated: for the series `5, 5, 1, 1` (length
`T = 4`) with `dmin = 1`, `dstep = 1`, `dmax = 3`, the premise
`T - dmax ≤ dmin` holds, yet `mser` returns 2, not `dmin = 1`: the
candidate range `1, 2` does not collapse, because the effective maximum is
`dmax` itself, not `T - dmax`. -/
theorem mser_collapse_counterexample :
    (([(5 : ℚ), 5, 1, 1].length : ℤ) - 3 ≤ ((1 : ℕ) : ℤ))
    ∧ mser [(5 : ℚ), 5, 1, 1] 1 1 3 ≠ Except.ok 1 := by
  constructor
  · decide
  · intro h
    have hv : mser [(5 : ℚ), 5, 1, 1] 1 1 3 = Except.ok 2 := by
      norm_num [mser, mserCandidates, mserK, mserDEff, mserStat,
        List.range_succ, List.foldl]
    rw [hv] at h
    exact absurd (Except.ok.inj h) (by decide)

end Kliff
